import Mathlib

set_option linter.unusedSectionVars false

/-!
Verification of the array-backed binary max-heap of `src/ds/heap.rs`
(repository luizmugnaini/algae) against its specification.

The Rust code is shallowly embedded: the backing `Vec<T>` becomes a
`List α`, `usize` indices become `Nat`, and the partial operations
(`assert!` / indexing panics) become explicit error results.  All
definitions are written with structural recursion (an explicit fuel
argument whose value at the call sites is provably sufficient), so that
every operation is executable by kernel reduction.
-/

namespace Algae

/-- Embeds `MaxHeap<T> { data: Vec<T>, size: usize }`. -/
structure MaxHeap (α : Type) where
  data : List α
  size : Nat
deriving DecidableEq

variable {α : Type} [LinearOrder α] [Inhabited α]

/-- Embeds `self.data.swap(i, j)` (Rust slice swap).  Out-of-range reads
return `default`, matching no reachable call site (all call sites are in
bounds). -/
def swapNodes (d : List α) (i j : Nat) : List α :=
  (d.set i (d.getD j default)).set j (d.getD i default)

/-- The index `largest` computed by the body of `MaxHeap::heapify_top`:
starting from `idx`, move to the left child when it exists (`2*idx+1 <
size`) and holds a strictly greater value, then to the right child
(`2*(idx+1)`) under the same test against the current candidate. -/
def largestIdx (size : Nat) (d : List α) (idx : Nat) : Nat :=
  let largest1 :=
    if 2*idx+1 < size ∧ d.getD idx default < d.getD (2*idx+1) default then 2*idx+1
    else idx
  if 2*(idx+1) < size ∧ d.getD largest1 default < d.getD (2*(idx+1)) default then 2*(idx+1)
  else largest1

/-- Embeds `MaxHeap::heapify_top` (sift-down), with fuel.  The recursion
of the source strictly increases `idx` while keeping it below `size`, so
any `fuel ≥ size - idx` computes the same result as the source. -/
def heapifyTopF : Nat → Nat → List α → Nat → List α
  | 0, _, d, _ => d
  | fuel+1, size, d, idx =>
    let largest := largestIdx size d idx
    if largest = idx then d
    else heapifyTopF fuel size (swapNodes d largest idx) largest

/-- `MaxHeap::heapify_top` with the (sufficient) fuel `size`. -/
def heapifyTop (size : Nat) (d : List α) (idx : Nat) : List α :=
  heapifyTopF size size d idx

/-- Embeds `MaxHeap::heapify_bottom` (sift-up), with fuel.  The source
recursion moves from `idx` to its parent `(idx-1)/2`, so any
`fuel ≥ idx + 1` computes the same result as the source. -/
def heapifyBottomF : Nat → Nat → List α → Nat → List α
  | 0, _, d, _ => d
  | fuel+1, size, d, idx =>
    if idx ≠ 0 ∧ idx < size then
      let p := (idx-1)/2
      if d.getD p default < d.getD idx default then
        heapifyBottomF fuel size (swapNodes d p idx) p
      else d
    else d

/-- `MaxHeap::heapify_bottom` with the (sufficient) fuel `idx + 1`. -/
def heapifyBottom (size : Nat) (d : List α) (idx : Nat) : List α :=
  heapifyBottomF (idx+1) size d idx

/-- The loop of `MaxHeap::build`: `for current_idx in (0..(size/2)).rev()`,
so `buildLoop size k d` runs `heapify_top` at `k-1, k-2, ..., 0`. -/
def buildLoop (size : Nat) : Nat → List α → List α
  | 0, d => d
  | k+1, d => buildLoop size k (heapifyTop size d k)

/-- Embeds `MaxHeap::build`. -/
def build (h : MaxHeap α) : MaxHeap α :=
  ⟨buildLoop h.size (h.size / 2) h.data, h.size⟩

/-- Embeds `MaxHeap::from_vec` (the spec calls it `build_from_sequence`):
take ownership of the data, set `size = length`, and `build`. -/
def fromVec (d : List α) : MaxHeap α :=
  build ⟨d, d.length⟩

/-- Embeds `MaxHeap::new`. -/
def MaxHeap.new : MaxHeap α :=
  ⟨[], 0⟩

/-- Embeds `MaxHeap::push`: `self.data.insert(self.size, new_node)`, then
`self.size += 1`, then `heapify_bottom(self.size - 1)`. -/
def push (h : MaxHeap α) (x : α) : MaxHeap α :=
  let d := List.insertIdx h.size x h.data
  let s := h.size + 1
  ⟨heapifyBottom s d (s - 1), s⟩

/-- The two failure conditions named by the specification. -/
inductive HeapErr where
  | invalidSize
  | indexOutOfBounds
deriving DecidableEq

/-- Embeds `MaxHeap::change_size_to`.  The source asserts
`new_size <= self.data.len()` before mutating and otherwise sets
`self.size = new_size` and returns `Ok(())`; the failed assertion
(a panic raised before any mutation) is modelled as the pair of the
untouched heap and the `invalidSize` condition. -/
def changeSizeTo (h : MaxHeap α) (n : Nat) : MaxHeap α × Option HeapErr :=
  if n ≤ h.data.length then ({ data := h.data, size := n }, none)
  else (h, some HeapErr.invalidSize)

/-- Embeds `MaxHeap::node_at`: `self.data[node_idx].clone()`.  The
out-of-bounds indexing panic is modelled as the `indexOutOfBounds`
condition. -/
def nodeAt (h : MaxHeap α) (i : Nat) : Except HeapErr α :=
  if i < h.data.length then Except.ok (h.data.getD i default)
  else Except.error HeapErr.indexOutOfBounds

/-- Embeds `MaxHeap::parent`. -/
def parent (h : MaxHeap α) (i : Nat) : Option Nat :=
  if i ≠ 0 ∧ i < h.size then some ((i-1)/2) else none

/-- Embeds `MaxHeap::left`. -/
def left (h : MaxHeap α) (i : Nat) : Option Nat :=
  if 2*i+1 < h.size then some (2*i+1) else none

/-- Embeds `MaxHeap::right`. -/
def right (h : MaxHeap α) (i : Nat) : Option Nat :=
  if 2*(i+1) < h.size then some (2*(i+1)) else none

/-- The loop of `MaxHeap::node_height`: follow left children while they
are inside the heap, counting edges; with fuel (the index at least
doubles each step, so `fuel ≥ size - i` is sufficient, and `size + 1`
always is). -/
def leftDescentF : Nat → Nat → Nat → Nat
  | 0, _, _ => 0
  | fuel+1, size, i => if 2*i+1 < size then leftDescentF fuel size (2*i+1) + 1 else 0

/-- Embeds `MaxHeap::node_height`: `None` when `node_idx > self.size`,
otherwise the number of edges walked by following left children. -/
def nodeHeight (h : MaxHeap α) (i : Nat) : Option Nat :=
  if i > h.size then none else some (leftDescentF (h.size + 1) h.size i)

/-- Number of edges on the path obtained from `i` by repeatedly following
the left child (`left(i) = 2i+1`, existing while `2i+1 < size`) until no
left child exists.  This is the path-length function in the words of the
specification of `node_height`; it is compared with the fuel-based
source embedding. -/
def specLeftPathEdges (size i : Nat) : Nat :=
  if 2*i+1 < size then specLeftPathEdges size (2*i+1) + 1 else 0
termination_by size - i
decreasing_by omega

/-- One iteration of the `heapsort` loop at index `idx`:
`h.data.swap(0, idx); h.size -= 1; h.heapify_top(0)`. -/
def heapsortStep (h : MaxHeap α) (idx : Nat) : MaxHeap α :=
  let d := swapNodes h.data 0 idx
  let s := h.size - 1
  ⟨heapifyTop s d 0, s⟩

/-- The loop of `MaxHeap::heapsort`: `for idx in (1..h.length()).rev()`,
so `heapsortLoop h k` runs the step at `k, k-1, ..., 1`. -/
def heapsortLoop : MaxHeap α → Nat → MaxHeap α
  | h, 0 => h
  | h, k+1 => heapsortLoop (heapsortStep h (k+1)) k

/-- Embeds `MaxHeap::heapsort`. -/
def heapsort (d : List α) : List α :=
  let h := fromVec d
  (heapsortLoop h (h.data.length - 1)).data

/-- Invariant I2 of the specification: every node of index `1 ≤ i < size`
is bounded by its parent `(i-1)/2`. -/
def IsHeap (size : Nat) (d : List α) : Prop :=
  ∀ i, i < size → 1 ≤ i → d.getD i default ≤ d.getD ((i-1)/2) default

instance (size : Nat) (d : List α) : Decidable (IsHeap size d) :=
  decidable_of_iff
    (∀ i, i < size → 1 ≤ i → d.getD i default ≤ d.getD ((i-1)/2) default) Iff.rfl

/-- The heap property restricted to the edges whose parent index is at
least `k` (used for the bottom-up construction argument). -/
def SuffixHeapFrom (k size : Nat) (d : List α) : Prop :=
  ∀ i, i < size → 1 ≤ i → k ≤ (i-1)/2 →
    d.getD i default ≤ d.getD ((i-1)/2) default

/-- Pointwise statement that the positions from `k` on are sorted. -/
def SortedFrom (k : Nat) (d : List α) : Prop :=
  ∀ i j, k ≤ i → i < j → j < d.length → d.getD i default ≤ d.getD j default

/-- Pointwise statement that every position before `k` is bounded by
every position from `k` on. -/
def DomFrom (k : Nat) (d : List α) : Prop :=
  ∀ i j, i < k → k ≤ j → j < d.length → d.getD i default ≤ d.getD j default

/-! ### List-level helper lemmas -/

theorem getD_set_ne : ∀ (l : List α) (i j : Nat) (a : α), i ≠ j →
    (l.set i a).getD j default = l.getD j default
  | [], _, _, _, _ => rfl
  | _ :: _, 0, 0, _, h => absurd rfl h
  | x :: t, 0, j+1, a, _ => by simp [List.set]
  | x :: t, i+1, 0, a, _ => by simp [List.set]
  | x :: t, i+1, j+1, a, h => by
    simp only [List.set, List.getD_cons_succ]
    exact getD_set_ne t i j a (by omega)

theorem getD_set_self : ∀ (l : List α) (i : Nat) (a : α), i < l.length →
    (l.set i a).getD i default = a
  | [], i, a, h => by simp at h
  | x :: t, 0, a, _ => rfl
  | x :: t, i+1, a, h => by
    simp only [List.set, List.getD_cons_succ]
    exact getD_set_self t i a (by simpa using h)

theorem swapNodes_length (d : List α) (i j : Nat) :
    (swapNodes d i j).length = d.length := by
  simp [swapNodes]

theorem swapNodes_getD_fst (d : List α) (i j : Nat) (hi : i < d.length) :
    (swapNodes d i j).getD i default = d.getD j default := by
  unfold swapNodes
  by_cases hij : i = j
  · subst hij
    exact getD_set_self _ _ _ (by simpa using hi)
  · rw [getD_set_ne _ j i _ (Ne.symm hij), getD_set_self _ _ _ hi]

theorem swapNodes_getD_snd (d : List α) (i j : Nat) (hj : j < d.length) :
    (swapNodes d i j).getD j default = d.getD i default := by
  unfold swapNodes
  exact getD_set_self _ _ _ (by simpa using hj)

theorem swapNodes_getD_other (d : List α) (i j m : Nat) (hmi : m ≠ i) (hmj : m ≠ j) :
    (swapNodes d i j).getD m default = d.getD m default := by
  unfold swapNodes
  rw [getD_set_ne _ j m _ (Ne.symm hmj), getD_set_ne _ i m _ (Ne.symm hmi)]

theorem getD_head_set_perm : ∀ (t : List α) (k : Nat) (x : α), k < t.length →
    (t.getD k default :: t.set k x).Perm (x :: t)
  | [], k, x, h => by simp at h
  | y :: ys, 0, x, _ => by
    simpa [List.set] using List.Perm.swap x y ys
  | y :: ys, k+1, x, h => by
    simp only [List.getD_cons_succ, List.set]
    have h1 : (ys.getD k default :: y :: ys.set k x).Perm
        (y :: ys.getD k default :: ys.set k x) := List.Perm.swap _ _ _
    have h2 : (y :: ys.getD k default :: ys.set k x).Perm (y :: x :: ys) :=
      List.Perm.cons y (getD_head_set_perm ys k x (by simpa using h))
    have h3 : (y :: x :: ys).Perm (x :: y :: ys) := List.Perm.swap _ _ _
    exact (h1.trans h2).trans h3

theorem swapNodes_perm : ∀ (l : List α) (i j : Nat), i < l.length → j < l.length →
    (swapNodes l i j).Perm l
  | [], i, _, hi, _ => by simp at hi
  | x :: t, 0, 0, _, _ => by simp [swapNodes, List.set]
  | x :: t, 0, j+1, _, hj => by
    simp only [swapNodes, List.getD_cons_succ, List.getD_cons_zero, List.set]
    exact getD_head_set_perm t j x (by simpa using hj)
  | x :: t, i+1, 0, hi, _ => by
    simp only [swapNodes, List.getD_cons_succ, List.getD_cons_zero, List.set]
    exact getD_head_set_perm t i x (by simpa using hi)
  | x :: t, i+1, j+1, hi, hj => by
    simp only [swapNodes, List.getD_cons_succ, List.set]
    exact List.Perm.cons x
      (swapNodes_perm t i j (by simpa using hi) (by simpa using hj))

theorem getD_insertIdx_lt : ∀ (l : List α) (n k : Nat) (x : α), k < n →
    (List.insertIdx n x l).getD k default = l.getD k default
  | _, 0, k, _, h => absurd h (by omega)
  | [], n+1, k, x, _ => by rw [List.insertIdx_succ_nil]
  | y :: t, n+1, 0, x, _ => by rw [List.insertIdx_succ_cons]; rfl
  | y :: t, n+1, k+1, x, h => by
    rw [List.insertIdx_succ_cons, List.getD_cons_succ, List.getD_cons_succ]
    exact getD_insertIdx_lt t n k x (by omega)

theorem getD_insertIdx_self : ∀ (l : List α) (n : Nat) (x : α), n ≤ l.length →
    (List.insertIdx n x l).getD n default = x
  | _, 0, x, _ => by rw [List.insertIdx_zero]; rfl
  | [], n+1, x, h => by simp at h
  | y :: t, n+1, x, h => by
    rw [List.insertIdx_succ_cons, List.getD_cons_succ]
    exact getD_insertIdx_self t n x (by simpa using h)

theorem getD_insertIdx_succ_ge : ∀ (l : List α) (n k : Nat) (x : α), n ≤ k →
    (List.insertIdx n x l).getD (k+1) default = l.getD k default
  | _, 0, k, x, _ => by rw [List.insertIdx_zero, List.getD_cons_succ]
  | [], n+1, k, x, _ => by rw [List.insertIdx_succ_nil]; rfl
  | y :: t, n+1, k, x, h => by
    obtain ⟨k0, rfl⟩ : ∃ k0, k = k0 + 1 := ⟨k - 1, by omega⟩
    rw [List.insertIdx_succ_cons, List.getD_cons_succ, List.getD_cons_succ]
    exact getD_insertIdx_succ_ge t n k0 x (by omega)

/-! ### Characterization of the sift-down target index -/

theorem largestIdx_spec (size : Nat) (d : List α) (idx : Nat) :
    (largestIdx size d idx = idx
      ∨ (largestIdx size d idx = 2*idx+1 ∧ 2*idx+1 < size)
      ∨ (largestIdx size d idx = 2*(idx+1) ∧ 2*(idx+1) < size))
    ∧ d.getD idx default ≤ d.getD (largestIdx size d idx) default
    ∧ (2*idx+1 < size →
        d.getD (2*idx+1) default ≤ d.getD (largestIdx size d idx) default)
    ∧ (2*(idx+1) < size →
        d.getD (2*(idx+1)) default ≤ d.getD (largestIdx size d idx) default) := by
  simp only [largestIdx]
  by_cases h1 : 2*idx+1 < size ∧ d.getD idx default < d.getD (2*idx+1) default
  · rw [if_pos h1]
    by_cases h2 : 2*(idx+1) < size ∧
        d.getD (2*idx+1) default < d.getD (2*(idx+1)) default
    · rw [if_pos h2]
      refine ⟨Or.inr (Or.inr ⟨rfl, h2.1⟩), ?_, fun _ => le_of_lt h2.2, fun _ => le_refl _⟩
      exact le_of_lt (lt_trans h1.2 h2.2)
    · rw [if_neg h2]
      refine ⟨Or.inr (Or.inl ⟨rfl, h1.1⟩), le_of_lt h1.2, fun _ => le_refl _, fun hr => ?_⟩
      have := fun hlt => h2 ⟨hr, hlt⟩
      exact not_lt.mp this
  · rw [if_neg h1]
    by_cases h2 : 2*(idx+1) < size ∧
        d.getD idx default < d.getD (2*(idx+1)) default
    · rw [if_pos h2]
      refine ⟨Or.inr (Or.inr ⟨rfl, h2.1⟩), le_of_lt h2.2, fun hl => ?_, fun _ => le_refl _⟩
      have hle : d.getD (2*idx+1) default ≤ d.getD idx default :=
        not_lt.mp (fun hlt => h1 ⟨hl, hlt⟩)
      exact le_trans hle (le_of_lt h2.2)
    · rw [if_neg h2]
      refine ⟨Or.inl rfl, le_refl _, fun hl => ?_, fun hr => ?_⟩
      · exact not_lt.mp (fun hlt => h1 ⟨hl, hlt⟩)
      · exact not_lt.mp (fun hlt => h2 ⟨hr, hlt⟩)

theorem largestIdx_of_ne {size : Nat} {d : List α} {idx : Nat}
    (h : largestIdx size d idx ≠ idx) :
    largestIdx size d idx < size ∧ idx < largestIdx size d idx ∧
      (largestIdx size d idx - 1)/2 = idx ∧ largestIdx size d idx ≤ 2*idx+2 := by
  rcases (largestIdx_spec size d idx).1 with h0 | ⟨he, hs⟩ | ⟨he, hs⟩
  · exact absurd h0 h
  · rw [he]; omega
  · rw [he]; omega

/-! ### Properties of sift-down -/

theorem heapifyTopF_succ (fuel size : Nat) (d : List α) (idx : Nat) :
    heapifyTopF (fuel+1) size d idx =
      if largestIdx size d idx = idx then d
      else heapifyTopF fuel size (swapNodes d (largestIdx size d idx) idx)
        (largestIdx size d idx) := rfl

theorem heapifyTopF_length : ∀ (fuel size : Nat) (d : List α) (idx : Nat),
    (heapifyTopF fuel size d idx).length = d.length
  | 0, _, _, _ => rfl
  | fuel+1, size, d, idx => by
    rw [heapifyTopF_succ]
    by_cases h : largestIdx size d idx = idx
    · rw [if_pos h]
    · rw [if_neg h, heapifyTopF_length fuel size _ _, swapNodes_length]

theorem heapifyTopF_getD_untouched : ∀ (fuel size : Nat) (d : List α) (idx m : Nat),
    m ≠ idx → m < 2*idx+1 →
    (heapifyTopF fuel size d idx).getD m default = d.getD m default
  | 0, _, _, _, _, _, _ => rfl
  | fuel+1, size, d, idx, m, hm1, hm2 => by
    rw [heapifyTopF_succ]
    by_cases h : largestIdx size d idx = idx
    · rw [if_pos h]
    · rw [if_neg h]
      obtain ⟨hls, hgt, hpar, hle⟩ := largestIdx_of_ne h
      rw [heapifyTopF_getD_untouched fuel size _ _ m (by omega) (by omega),
        swapNodes_getD_other d _ idx m (by omega) (by omega)]

theorem heapifyTopF_getD_ge_size : ∀ (fuel size : Nat) (d : List α) (idx m : Nat),
    size ≤ m →
    (heapifyTopF fuel size d idx).getD m default = d.getD m default
  | 0, _, _, _, _, _ => rfl
  | fuel+1, size, d, idx, m, hm => by
    rw [heapifyTopF_succ]
    by_cases h : largestIdx size d idx = idx
    · rw [if_pos h]
    · rw [if_neg h]
      obtain ⟨hls, hgt, hpar, hle⟩ := largestIdx_of_ne h
      rw [heapifyTopF_getD_ge_size fuel size _ _ m hm,
        swapNodes_getD_other d _ idx m (by omega) (by omega)]

theorem heapifyTopF_perm : ∀ (fuel size : Nat) (d : List α) (idx : Nat),
    size ≤ d.length → (heapifyTopF fuel size d idx).Perm d
  | 0, _, d, _, _ => List.Perm.refl d
  | fuel+1, size, d, idx, hlen => by
    rw [heapifyTopF_succ]
    by_cases h : largestIdx size d idx = idx
    · rw [if_pos h]
    · rw [if_neg h]
      obtain ⟨hls, hgt, hpar, hle⟩ := largestIdx_of_ne h
      exact (heapifyTopF_perm fuel size _ _
          (by rw [swapNodes_length]; exact hlen)).trans
        (swapNodes_perm d _ idx (by omega) (by omega))

theorem heapifyTopF_bound (fuel size : Nat) (d : List α) (idx : Nat) (b : α)
    (hlen : size ≤ d.length)
    (h0 : d.getD idx default ≤ b)
    (hl : 2*idx+1 < size → d.getD (2*idx+1) default ≤ b)
    (hr : 2*(idx+1) < size → d.getD (2*(idx+1)) default ≤ b) :
    (heapifyTopF fuel size d idx).getD idx default ≤ b := by
  cases fuel with
  | zero => exact h0
  | succ fuel =>
    rw [heapifyTopF_succ]
    by_cases h : largestIdx size d idx = idx
    · rw [if_pos h]; exact h0
    · rw [if_neg h]
      obtain ⟨hls, hgt, hpar, hle⟩ := largestIdx_of_ne h
      rw [heapifyTopF_getD_untouched fuel size _ _ idx (by omega) (by omega),
        swapNodes_getD_snd d _ idx (by omega)]
      rcases (largestIdx_spec size d idx).1 with he | ⟨he, hs⟩ | ⟨he, hs⟩
      · exact absurd he h
      · rw [he]; exact hl hs
      · rw [he]; exact hr hs

theorem heapifyTopF_suffix : ∀ (fuel size : Nat) (d : List α) (idx : Nat),
    size ≤ d.length → size - idx ≤ fuel → SuffixHeapFrom (idx+1) size d →
    SuffixHeapFrom idx size (heapifyTopF fuel size d idx)
  | 0, size, d, idx, _, hfuel, _ => by
    intro i hi h1 hp
    exact absurd hp (by omega)
  | fuel+1, size, d, idx, hlen, hfuel, hsuf => by
    rw [heapifyTopF_succ]
    by_cases h : largestIdx size d idx = idx
    · rw [if_pos h]
      intro i hi h1 hp
      by_cases hpi : (i-1)/2 = idx
      · rcases (by omega : i = 2*idx+1 ∨ i = 2*(idx+1)) with rfl | rfl
        · rw [hpi]
          have := (largestIdx_spec size d idx).2.2.1 hi
          rwa [h] at this
        · rw [hpi]
          have := (largestIdx_spec size d idx).2.2.2 hi
          rwa [h] at this
      · exact hsuf i hi h1 (by omega)
    · rw [if_neg h]
      obtain ⟨hspec1, hge0, hgel, hger⟩ := largestIdx_spec size d idx
      obtain ⟨hls, hgt, hpar, hle2⟩ := largestIdx_of_ne h
      generalize hLdef : largestIdx size d idx = L
        at h hge0 hgel hger hls hgt hpar hle2 ⊢
      have hsub : SuffixHeapFrom (L+1) size (swapNodes d L idx) := by
        intro i hi h1 hp
        rw [swapNodes_getD_other d L idx i (by omega) (by omega),
          swapNodes_getD_other d L idx ((i-1)/2) (by omega) (by omega)]
        exact hsuf i hi h1 (by omega)
      have hrec := heapifyTopF_suffix fuel size (swapNodes d L idx) L
        (by rw [swapNodes_length]; exact hlen) (by omega) hsub
      have hidxval :
          (heapifyTopF fuel size (swapNodes d L idx) L).getD idx default
            = d.getD L default := by
        rw [heapifyTopF_getD_untouched fuel size _ _ idx (by omega) (by omega),
          swapNodes_getD_snd d L idx (by omega)]
      intro i hi h1 hp
      by_cases hcase : L ≤ (i-1)/2
      · exact hrec i hi h1 hcase
      · by_cases hpidx : (i-1)/2 = idx
        · by_cases hiL : i = L
          · rw [hpidx, hiL, hidxval]
            apply heapifyTopF_bound fuel size _ L (d.getD L default)
              (by rw [swapNodes_length]; exact hlen)
            · rw [swapNodes_getD_fst d L idx (by omega)]
              exact hge0
            · intro hls2
              rw [swapNodes_getD_other d L idx (2*L+1) (by omega) (by omega)]
              have hq := hsuf (2*L+1) hls2 (by omega) (by omega)
              have heq : (2*L+1-1)/2 = L := by omega
              rwa [heq] at hq
            · intro hrs2
              rw [swapNodes_getD_other d L idx (2*(L+1)) (by omega) (by omega)]
              have hq := hsuf (2*(L+1)) hrs2 (by omega) (by omega)
              have heq : (2*(L+1)-1)/2 = L := by omega
              rwa [heq] at hq
          · rw [hpidx, hidxval]
            rw [heapifyTopF_getD_untouched fuel size _ _ i hiL (by omega),
              swapNodes_getD_other d L idx i hiL (by omega)]
            rcases (by omega : i = 2*idx+1 ∨ i = 2*(idx+1)) with rfl | rfl
            · exact hgel hi
            · exact hger hi
        · rw [heapifyTopF_getD_untouched fuel size _ _ i (by omega) (by omega),
            swapNodes_getD_other d L idx i (by omega) (by omega),
            heapifyTopF_getD_untouched fuel size _ _ ((i-1)/2) (by omega) (by omega),
            swapNodes_getD_other d L idx ((i-1)/2) (by omega) (by omega)]
          exact hsuf i hi h1 (by omega)

/-! ### Construction establishes the heap property -/

theorem suffixHeapFrom_zero (size : Nat) (d : List α) :
    SuffixHeapFrom 0 size d ↔ IsHeap size d := by
  constructor
  · intro h i hi h1
    exact h i hi h1 (Nat.zero_le _)
  · intro h i hi h1 _
    exact h i hi h1

theorem isHeap_mono (m size : Nat) (d : List α) (hm : m ≤ size) (h : IsHeap size d) :
    IsHeap m d :=
  fun i hi h1 => h i (lt_of_lt_of_le hi hm) h1

theorem isHeap_le_root (size : Nat) (d : List α) (h : IsHeap size d) :
    ∀ i, i < size → d.getD i default ≤ d.getD 0 default := by
  intro i
  induction i using Nat.strong_induction_on with
  | _ i ih =>
    intro hi
    rcases Nat.eq_zero_or_pos i with rfl | h1
    · exact le_refl _
    · exact (h i hi h1).trans (ih ((i-1)/2) (by omega) (by omega))

theorem buildLoop_length : ∀ (size k : Nat) (d : List α),
    (buildLoop size k d).length = d.length
  | _, 0, _ => rfl
  | size, k+1, d => by
    rw [show buildLoop size (k+1) d = buildLoop size k (heapifyTop size d k) from rfl,
      buildLoop_length size k _, heapifyTop, heapifyTopF_length]

theorem buildLoop_perm : ∀ (size k : Nat) (d : List α), size ≤ d.length →
    (buildLoop size k d).Perm d
  | _, 0, d, _ => List.Perm.refl d
  | size, k+1, d, hlen => by
    rw [show buildLoop size (k+1) d = buildLoop size k (heapifyTop size d k) from rfl]
    exact (buildLoop_perm size k _
        (by rw [heapifyTop, heapifyTopF_length]; exact hlen)).trans
      (heapifyTopF_perm size size d k hlen)

theorem buildLoop_heap : ∀ (size k : Nat) (d : List α), size ≤ d.length →
    SuffixHeapFrom k size d → SuffixHeapFrom 0 size (buildLoop size k d)
  | _, 0, _, _, hs => hs
  | size, k+1, d, hlen, hs => by
    rw [show buildLoop size (k+1) d = buildLoop size k (heapifyTop size d k) from rfl]
    exact buildLoop_heap size k _ (by rw [heapifyTop, heapifyTopF_length]; exact hlen)
      (heapifyTopF_suffix size size d k hlen (by omega) hs)

theorem suffixHeapFrom_half (size : Nat) (d : List α) :
    SuffixHeapFrom (size/2) size d := by
  intro i hi h1 hp
  exact absurd hp (by omega)

theorem fromVec_size (d : List α) : (fromVec d : MaxHeap α).size = d.length := rfl

theorem fromVec_length (d : List α) : (fromVec d : MaxHeap α).data.length = d.length := by
  show (buildLoop d.length (d.length/2) d).length = d.length
  exact buildLoop_length _ _ _

theorem fromVec_perm (d : List α) : (fromVec d : MaxHeap α).data.Perm d :=
  buildLoop_perm _ _ _ (le_refl _)

theorem fromVec_isHeap (d : List α) : IsHeap d.length (fromVec d : MaxHeap α).data :=
  (suffixHeapFrom_zero _ _).mp
    (buildLoop_heap d.length (d.length/2) d (le_refl _) (suffixHeapFrom_half _ _))

/-! ### Properties of sift-up -/

theorem heapifyBottomF_succ (fuel size : Nat) (d : List α) (idx : Nat) :
    heapifyBottomF (fuel+1) size d idx =
      if idx ≠ 0 ∧ idx < size then
        (if d.getD ((idx-1)/2) default < d.getD idx default then
          heapifyBottomF fuel size (swapNodes d ((idx-1)/2) idx) ((idx-1)/2)
        else d)
      else d := rfl

theorem heapifyBottomF_length : ∀ (fuel size : Nat) (d : List α) (idx : Nat),
    (heapifyBottomF fuel size d idx).length = d.length
  | 0, _, _, _ => rfl
  | fuel+1, size, d, idx => by
    rw [heapifyBottomF_succ]
    split_ifs with h1 h2
    · rw [heapifyBottomF_length fuel size _ _, swapNodes_length]
    · rfl
    · rfl

theorem heapifyBottomF_getD_above : ∀ (fuel size : Nat) (d : List α) (idx m : Nat),
    idx < m →
    (heapifyBottomF fuel size d idx).getD m default = d.getD m default
  | 0, _, _, _, _, _ => rfl
  | fuel+1, size, d, idx, m, hm => by
    rw [heapifyBottomF_succ]
    split_ifs with h1 h2
    · rw [heapifyBottomF_getD_above fuel size _ _ m (by omega),
        swapNodes_getD_other d _ idx m (by omega) (by omega)]
    · rfl
    · rfl

theorem heapifyBottomF_heap : ∀ (fuel size : Nat) (d : List α) (j : Nat),
    size ≤ d.length → j < fuel →
    (∀ i, i < size → 1 ≤ i → i ≠ j → d.getD i default ≤ d.getD ((i-1)/2) default) →
    (j ≠ 0 → ∀ c, c < size → (c-1)/2 = j →
      d.getD c default ≤ d.getD ((j-1)/2) default) →
    IsHeap size (heapifyBottomF fuel size d j)
  | 0, _, _, j, _, hf, _, _ => absurd hf (by omega)
  | fuel+1, size, d, j, hlen, hf, hA1, hA2 => by
    rw [heapifyBottomF_succ]
    by_cases hg : j ≠ 0 ∧ j < size
    · rw [if_pos hg]
      by_cases hlt : d.getD ((j-1)/2) default < d.getD j default
      · rw [if_pos hlt]
        refine heapifyBottomF_heap fuel size _ ((j-1)/2)
          (by rw [swapNodes_length]; exact hlen) (by omega) ?_ ?_
        · intro i hi h1 hip
          by_cases hij : i = j
          · subst hij
            rw [swapNodes_getD_snd d _ _ (by omega),
              swapNodes_getD_fst d _ _ (by omega)]
            exact le_of_lt hlt
          · by_cases hparj : (i-1)/2 = j
            · rw [swapNodes_getD_other d _ j i (by omega) hij, hparj,
                swapNodes_getD_snd d _ j (by omega)]
              exact hA2 hg.1 i hi hparj
            · by_cases hparp : (i-1)/2 = (j-1)/2
              · rw [swapNodes_getD_other d _ j i hip hij, hparp,
                  swapNodes_getD_fst d _ j (by omega)]
                refine le_trans ?_ (le_of_lt hlt)
                have hq := hA1 i hi h1 hij
                rwa [hparp] at hq
              · rw [swapNodes_getD_other d _ j i hip hij,
                  swapNodes_getD_other d _ j ((i-1)/2) hparp hparj]
                exact hA1 i hi h1 hij
        · intro hp0 c hc hcp
          rw [swapNodes_getD_other d _ j (((j-1)/2-1)/2) (by omega) (by omega)]
          by_cases hcj : c = j
          · rw [hcj, swapNodes_getD_snd d _ j (by omega)]
            exact hA1 ((j-1)/2) (by omega) (by omega) (by omega)
          · rw [swapNodes_getD_other d _ j c (by omega) hcj]
            refine le_trans ?_ (hA1 ((j-1)/2) (by omega) (by omega) (by omega))
            have hq := hA1 c hc (by omega) hcj
            rwa [hcp] at hq
      · rw [if_neg hlt]
        intro i hi h1
        by_cases hij : i = j
        · rw [hij]
          exact not_lt.mp hlt
        · exact hA1 i hi h1 hij
    · rw [if_neg hg]
      intro i hi h1
      exact hA1 i hi h1 (by omega)

/-! ### Facts about push -/

theorem push_size (h : MaxHeap α) (x : α) : (push h x).size = h.size + 1 := rfl

theorem push_length (h : MaxHeap α) (x : α) (hle : h.size ≤ h.data.length) :
    (push h x).data.length = h.data.length + 1 := by
  show (heapifyBottom _ _ _).length = _
  rw [heapifyBottom, heapifyBottomF_length, List.length_insertIdx _ _ hle]

theorem push_isHeap (h : MaxHeap α) (x : α) (hle : h.size ≤ h.data.length)
    (hh : IsHeap h.size h.data) : IsHeap (push h x).size (push h x).data := by
  show IsHeap (h.size+1)
    (heapifyBottomF (h.size+1) (h.size+1) (List.insertIdx h.size x h.data) h.size)
  refine heapifyBottomF_heap (h.size+1) (h.size+1) _ h.size
    (by rw [List.length_insertIdx _ _ hle]; omega) (by omega) ?_ ?_
  · intro i hi h1 hij
    rw [getD_insertIdx_lt _ _ _ _ (by omega), getD_insertIdx_lt _ _ _ _ (by omega)]
    exact hh i (by omega) h1
  · intro h0 c hc hcp
    exact absurd hcp (by omega)

/-! ### The heapsort loop -/

theorem heapsortLoop_size : ∀ (h : MaxHeap α) (k : Nat),
    (heapsortLoop h k).size = h.size - k
  | _, 0 => rfl
  | h, k+1 => by
    rw [show heapsortLoop h (k+1) = heapsortLoop (heapsortStep h (k+1)) k from rfl,
      heapsortLoop_size _ k]
    show h.size - 1 - k = h.size - (k+1)
    omega

theorem heapsortLoop_length : ∀ (h : MaxHeap α) (k : Nat),
    (heapsortLoop h k).data.length = h.data.length
  | _, 0 => rfl
  | h, k+1 => by
    rw [show heapsortLoop h (k+1) = heapsortLoop (heapsortStep h (k+1)) k from rfl,
      heapsortLoop_length _ k]
    show (heapifyTop _ _ 0).length = _
    rw [heapifyTop, heapifyTopF_length, swapNodes_length]

theorem heapsortLoop_inv : ∀ (k : Nat) (h : MaxHeap α),
    h.size = k+1 → k < h.data.length → IsHeap h.size h.data →
    SortedFrom (k+1) h.data → DomFrom (k+1) h.data →
    SortedFrom 0 (heapsortLoop h k).data ∧ (heapsortLoop h k).data.Perm h.data
  | 0, h, _, _, _, hsort, hdom => by
    refine ⟨?_, List.Perm.refl _⟩
    intro i j h0i hij hj
    rcases Nat.eq_zero_or_pos i with rfl | h1
    · exact hdom 0 j (by omega) (by omega) hj
    · exact hsort i j h1 hij hj
  | k+1, h, hsz, hlen, hheap, hsort, hdom => by
    rw [hsz] at hheap
    have hd1len : (swapNodes h.data 0 (k+1)).length = h.data.length :=
      swapNodes_length _ _ _
    have hS : (heapsortStep h (k+1)).size = k+1 := by
      show h.size - 1 = k+1
      omega
    have hD : (heapsortStep h (k+1)).data
        = heapifyTopF (k+1) (k+1) (swapNodes h.data 0 (k+1)) 0 := by
      show heapifyTop (h.size - 1) _ 0 = _
      have e : h.size - 1 = k + 1 := by omega
      rw [e, heapifyTop]
    have hd2len : (heapsortStep h (k+1)).data.length = h.data.length := by
      rw [hD, heapifyTopF_length, hd1len]
    have hsub : SuffixHeapFrom 1 (k+1) (swapNodes h.data 0 (k+1)) := by
      intro i hi h1 hp
      rw [swapNodes_getD_other h.data 0 (k+1) i (by omega) (by omega),
        swapNodes_getD_other h.data 0 (k+1) ((i-1)/2) (by omega) (by omega)]
      exact hheap i (by omega) h1
    have hheap2 : IsHeap (k+1) (heapsortStep h (k+1)).data := by
      rw [hD]
      exact (suffixHeapFrom_zero _ _).mp
        (heapifyTopF_suffix (k+1) (k+1) (swapNodes h.data 0 (k+1)) 0
          (by rw [hd1len]; omega) (by omega) hsub)
    have hsuffval : ∀ m, k+1 ≤ m →
        (heapsortStep h (k+1)).data.getD m default
          = (swapNodes h.data 0 (k+1)).getD m default := by
      intro m hm
      rw [hD]
      exact heapifyTopF_getD_ge_size _ _ _ _ _ hm
    have hmax : ∀ i, i < k+2 → h.data.getD i default ≤ h.data.getD 0 default :=
      isHeap_le_root _ _ hheap
    have hd1at : (swapNodes h.data 0 (k+1)).getD (k+1) default
        = h.data.getD 0 default :=
      swapNodes_getD_snd _ _ _ (by omega)
    have hd1lo : ∀ m, k+2 ≤ m →
        (swapNodes h.data 0 (k+1)).getD m default = h.data.getD m default :=
      fun m hm => swapNodes_getD_other _ _ _ _ (by omega) (by omega)
    have hroot : (heapsortStep h (k+1)).data.getD 0 default
        ≤ h.data.getD 0 default := by
      rw [hD]
      refine heapifyTopF_bound _ _ _ _ _ (by rw [hd1len]; omega) ?_ ?_ ?_
      · rw [swapNodes_getD_fst _ _ _ (by omega)]
        exact hmax (k+1) (by omega)
      · intro hl
        show (swapNodes h.data 0 (k+1)).getD 1 default ≤ h.data.getD 0 default
        rw [swapNodes_getD_other h.data 0 (k+1) 1 (by omega) (by omega)]
        exact hmax 1 (by omega)
      · intro hr
        show (swapNodes h.data 0 (k+1)).getD 2 default ≤ h.data.getD 0 default
        rw [swapNodes_getD_other h.data 0 (k+1) 2 (by omega) (by omega)]
        exact hmax 2 (by omega)
    have hsort2 : SortedFrom (k+1) (heapsortStep h (k+1)).data := by
      intro i j hki hij hj
      rw [hd2len] at hj
      rw [hsuffval i hki, hsuffval j (by omega)]
      rcases Nat.eq_or_lt_of_le hki with hik | hik
      · rw [← hik, hd1at, hd1lo j (by omega)]
        exact hdom 0 j (by omega) (by omega) hj
      · rw [hd1lo i (by omega), hd1lo j (by omega)]
        exact hsort i j (by omega) hij hj
    have hdom2 : DomFrom (k+1) (heapsortStep h (k+1)).data := by
      intro i j hik hkj hj
      rw [hd2len] at hj
      refine le_trans (isHeap_le_root _ _ hheap2 i (by omega))
        (le_trans hroot ?_)
      rw [hsuffval j hkj]
      rcases Nat.eq_or_lt_of_le hkj with hjk | hjk
      · rw [← hjk, hd1at]
      · rw [hd1lo j (by omega)]
        exact hdom 0 j (by omega) (by omega) hj
    obtain ⟨hres1, hres2⟩ := heapsortLoop_inv k (heapsortStep h (k+1)) hS
      (by rw [hd2len]; omega) (by rw [hS]; exact hheap2) hsort2 hdom2
    rw [show heapsortLoop h (k+1) = heapsortLoop (heapsortStep h (k+1)) k from rfl]
    refine ⟨hres1, hres2.trans ?_⟩
    rw [hD]
    exact (heapifyTopF_perm _ _ _ _ (by rw [hd1len]; omega)).trans
      (swapNodes_perm h.data 0 (k+1) (by omega) (by omega))

theorem sortedFrom_sorted (d : List α) (h : SortedFrom 0 d) :
    List.Sorted (· ≤ ·) d := by
  refine List.pairwise_iff_getElem.mpr ?_
  intro i j hi hj hij
  have hq := h i j (Nat.zero_le _) hij hj
  rwa [List.getD_eq_getElem d default hi, List.getD_eq_getElem d default hj] at hq

theorem heapsort_main (xs : List α) :
    (heapsort xs).Perm xs ∧ List.Sorted (· ≤ ·) (heapsort xs) := by
  rcases Nat.eq_zero_or_pos xs.length with h0 | hpos
  · have hnil : xs = [] := List.length_eq_zero.mp h0
    subst hnil
    have hemp : heapsort ([] : List α) = [] := by
      show (heapsortLoop (fromVec ([] : List α))
        ((fromVec ([] : List α)).data.length - 1)).data = []
      have e1 : (fromVec ([] : List α)) = (⟨[], 0⟩ : MaxHeap α) := by
        show build ⟨[], 0⟩ = _
        show (⟨buildLoop 0 (0/2) [], 0⟩ : MaxHeap α) = _
        norm_num
        rfl
      rw [e1]
      rfl
    rw [hemp]
    exact ⟨List.Perm.refl _, List.sorted_nil⟩
  · obtain ⟨m, hm⟩ : ∃ m, xs.length = m+1 := ⟨xs.length - 1, by omega⟩
    have h1 : (fromVec xs : MaxHeap α).size = m+1 := by rw [fromVec_size, hm]
    have h2 : m < (fromVec xs : MaxHeap α).data.length := by
      rw [fromVec_length, hm]
      omega
    have h3 : IsHeap (fromVec xs : MaxHeap α).size (fromVec xs).data := by
      rw [fromVec_size]
      exact fromVec_isHeap xs
    have h4 : SortedFrom (m+1) (fromVec xs : MaxHeap α).data := by
      intro i j hi hij hj
      rw [fromVec_length, hm] at hj
      exact absurd hij (by omega)
    have h5 : DomFrom (m+1) (fromVec xs : MaxHeap α).data := by
      intro i j hi hj hjl
      rw [fromVec_length, hm] at hjl
      exact absurd hjl (by omega)
    obtain ⟨hs, hp⟩ := heapsortLoop_inv m (fromVec xs) h1 h2 h3 h4 h5
    have hlen1 : (fromVec xs : MaxHeap α).data.length - 1 = m := by
      rw [fromVec_length, hm]
      omega
    have hh : heapsort xs = (heapsortLoop (fromVec xs) m).data := by
      show (heapsortLoop (fromVec xs) ((fromVec xs).data.length - 1)).data = _
      rw [hlen1]
    rw [hh]
    exact ⟨hp.trans (fromVec_perm xs), sortedFrom_sorted _ hs⟩

theorem leftDescentF_eq_spec : ∀ (fuel size i : Nat), size - i ≤ fuel →
    leftDescentF fuel size i = specLeftPathEdges size i
  | 0, size, i, hf => by
    rw [specLeftPathEdges, if_neg (by omega)]
    rfl
  | fuel+1, size, i, hf => by
    rw [specLeftPathEdges]
    show (if 2*i+1 < size then leftDescentF fuel size (2*i+1) + 1 else 0) = _
    by_cases hc : 2*i+1 < size
    · rw [if_pos hc, if_pos hc, leftDescentF_eq_spec fuel size (2*i+1) (by omega)]
    · rw [if_neg hc, if_neg hc]

/-! ### The claims -/

/-- Claim C1: for every finite input sequence `xs` (including the empty
sequence, single-element sequences, and sequences with duplicates),
`heapsort xs` succeeds (it is a total function) and returns a sequence
that is a permutation of `xs` and is non-decreasing. -/
theorem heapsort_perm_sorted (xs : List α) :
    (heapsort xs).Perm xs ∧ List.Sorted (· ≤ ·) (heapsort xs) :=
  heapsort_main xs

/-- Claim C2: `change_size_to n` fails with the InvalidSize condition for
every `n > length`, leaving the heap — in particular its `size` field —
unchanged, and succeeds for every `n ≤ length`, setting `size` to `n`. -/
theorem changeSizeTo_spec (h : MaxHeap α) (n : Nat) :
    (h.data.length < n →
      changeSizeTo h n = (h, some HeapErr.invalidSize)) ∧
    (n ≤ h.data.length →
      changeSizeTo h n = ({ data := h.data, size := n }, none)) := by
  constructor
  · intro hgt
    rw [changeSizeTo, if_neg (by omega)]
  · intro hle
    rw [changeSizeTo, if_pos hle]

/-- Witness for claim C2 at a concrete heap: failure at `n = 5` and
success at `n = 1` on a two-slot heap. -/
theorem changeSizeTo_spec_witness :
    ((⟨[1,2],2⟩ : MaxHeap Int).data.length < 5 ∧
      changeSizeTo (⟨[1,2],2⟩ : MaxHeap Int) 5
        = ((⟨[1,2],2⟩ : MaxHeap Int), some HeapErr.invalidSize)) ∧
    (1 ≤ (⟨[1,2],2⟩ : MaxHeap Int).data.length ∧
      changeSizeTo (⟨[1,2],2⟩ : MaxHeap Int) 1
        = ((⟨[1,2],1⟩ : MaxHeap Int), none)) :=
  ⟨⟨by decide, (changeSizeTo_spec (⟨[1,2],2⟩ : MaxHeap Int) 5).1 (by decide)⟩,
   ⟨by decide, (changeSizeTo_spec (⟨[1,2],2⟩ : MaxHeap Int) 1).2 (by decide)⟩⟩

/-- Counterexample to claim C3 as stated: a sequence of public operations
(bulk construction from `[3,2,1]`, shrink to size 0, `push 0`, then
`change_size_to 4`, which succeeds since the backing array has length 4)
ends in a heap state violating invariant I2. -/
theorem invariants_after_ops_cex :
    ¬ IsHeap
      (changeSizeTo (push (changeSizeTo (fromVec ([3,2,1] : List Int)) 0).1 0) 4).1.size
      (changeSizeTo (push (changeSizeTo (fromVec ([3,2,1] : List Int)) 0).1 0) 4).1.data := by
  decide

/-- Claim C3 as amended: after bulk construction both I1 (`size ≤ length`)
and I2 (the heap property) hold; `push` preserves I1 and I2; a successful
`change_size_to n` preserves I1 always, and preserves I2 whenever `n`
does not exceed the old size (growing the size over residual storage may
break I2, as the counterexample shows); and the final heap state of the
heapsort loop satisfies I1 and I2. -/
theorem invariants_after_ops (d : List α) (h : MaxHeap α) (x : α) (n : Nat)
    (hle : h.size ≤ h.data.length) (hheap : IsHeap h.size h.data) :
    (IsHeap (fromVec d : MaxHeap α).size (fromVec d).data ∧
      (fromVec d : MaxHeap α).size ≤ (fromVec d).data.length) ∧
    (IsHeap (push h x).size (push h x).data ∧
      (push h x).size ≤ (push h x).data.length) ∧
    ((changeSizeTo h n).1.size ≤ (changeSizeTo h n).1.data.length ∧
      (n ≤ h.size → IsHeap (changeSizeTo h n).1.size (changeSizeTo h n).1.data)) ∧
    (IsHeap (heapsortLoop (fromVec d) ((fromVec d : MaxHeap α).data.length - 1)).size
        (heapsortLoop (fromVec d) ((fromVec d : MaxHeap α).data.length - 1)).data ∧
      (heapsortLoop (fromVec d) ((fromVec d : MaxHeap α).data.length - 1)).size
        ≤ (heapsortLoop (fromVec d) ((fromVec d : MaxHeap α).data.length - 1)).data.length) := by
  refine ⟨⟨?_, ?_⟩, ⟨?_, ?_⟩, ⟨?_, ?_⟩, ⟨?_, ?_⟩⟩
  · rw [fromVec_size]
    exact fromVec_isHeap d
  · rw [fromVec_size, fromVec_length]
  · exact push_isHeap h x hle hheap
  · rw [push_size, push_length h x hle]
    omega
  · rw [changeSizeTo]
    by_cases hc : n ≤ h.data.length
    · rw [if_pos hc]
      exact hc
    · rw [if_neg hc]
      exact hle
  · intro hn
    rw [changeSizeTo, if_pos (by omega)]
    exact isHeap_mono n h.size h.data hn hheap
  · intro i hi h1
    exfalso
    rw [heapsortLoop_size, fromVec_size, fromVec_length] at hi
    omega
  · rw [heapsortLoop_size, heapsortLoop_length, fromVec_size, fromVec_length]
    omega

/-- Witness for the amended claim C3 at concrete inputs. -/
theorem invariants_after_ops_witness :
    ((⟨[3,1],2⟩ : MaxHeap Int).size ≤ (⟨[3,1],2⟩ : MaxHeap Int).data.length ∧
      IsHeap (⟨[3,1],2⟩ : MaxHeap Int).size (⟨[3,1],2⟩ : MaxHeap Int).data) ∧
    IsHeap (fromVec ([2,1] : List Int)).size (fromVec ([2,1] : List Int)).data ∧
    IsHeap (push (⟨[3,1],2⟩ : MaxHeap Int) 7).size
      (push (⟨[3,1],2⟩ : MaxHeap Int) 7).data ∧
    IsHeap (changeSizeTo (⟨[3,1],2⟩ : MaxHeap Int) 1).1.size
      (changeSizeTo (⟨[3,1],2⟩ : MaxHeap Int) 1).1.data :=
  ⟨⟨by decide, by decide⟩,
    (invariants_after_ops [2,1] ⟨[3,1],2⟩ 7 1 (by decide) (by decide)).1.1,
    (invariants_after_ops [2,1] ⟨[3,1],2⟩ 7 1 (by decide) (by decide)).2.1.1,
    (invariants_after_ops [2,1] ⟨[3,1],2⟩ 7 1 (by decide) (by decide)).2.2.1.2
      (by decide)⟩

/-- Claim C4: bulk construction from `[9,3,1,2,4,16,10,7,8,14]` produces
backing storage exactly `[16,14,10,8,4,1,9,7,2,3]` with
`size = length = 10`. -/
theorem fromVec_scenario :
    (fromVec ([9,3,1,2,4,16,10,7,8,14] : List Int)).data = [16,14,10,8,4,1,9,7,2,3]
    ∧ (fromVec ([9,3,1,2,4,16,10,7,8,14] : List Int)).size = 10
    ∧ (fromVec ([9,3,1,2,4,16,10,7,8,14] : List Int)).data.length = 10 := by
  refine ⟨by decide, rfl, by decide⟩

/-- Claim C5: pushing `9,3,1,2,4,16,10,7,8,14` one at a time into an
initially empty heap yields backing storage `[16,14,10,7,8,1,9,2,4,3]`. -/
theorem push_scenario :
    (([9,3,1,2,4,16,10,7,8,14] : List Int).foldl push MaxHeap.new).data
      = [16,14,10,7,8,1,9,2,4,3] := by
  decide

/-- Claim C6: `parent i` is `some ((i-1)/2)` exactly when `i ≠ 0` and
`i < size` and `none` otherwise; `left i` is `some (2i+1)` exactly when
`2i+1 < size`; `right i` is `some (2(i+1))` exactly when `2(i+1) < size`. -/
theorem nav_spec (h : MaxHeap α) (i : Nat) :
    parent h i = (if i ≠ 0 ∧ i < h.size then some ((i-1)/2) else none)
    ∧ left h i = (if 2*i+1 < h.size then some (2*i+1) else none)
    ∧ right h i = (if 2*(i+1) < h.size then some (2*(i+1)) else none) :=
  ⟨rfl, rfl, rfl⟩

/-- Claim C7: `node_height i` is `none` when `i > size` and otherwise
`some h` where `h` is the number of edges on the path from `i` obtained
by repeatedly following the left child until no left child exists (so
`i = size` is accepted, and any `i ≤ size` without a left child yields
`some 0`). -/
theorem nodeHeight_spec (h : MaxHeap α) (i : Nat) :
    nodeHeight h i =
      (if i > h.size then none else some (specLeftPathEdges h.size i)) := by
  rw [nodeHeight]
  by_cases hc : i > h.size
  · rw [if_pos hc, if_pos hc]
  · rw [if_neg hc, if_neg hc,
      leftDescentF_eq_spec (h.size+1) h.size i (by omega)]

/-- Claim C8: sorting an already-sorted sequence returns it unchanged. -/
theorem heapsort_sorted_id (xs : List α) (hs : List.Sorted (· ≤ ·) xs) :
    heapsort xs = xs :=
  List.eq_of_perm_of_sorted (heapsort_main xs).1 (heapsort_main xs).2 hs

/-- Witness for claim C8 at a concrete sorted list with a duplicate. -/
theorem heapsort_sorted_id_witness :
    List.Sorted (· ≤ ·) ([1,2,2,5] : List Int) ∧
      heapsort ([1,2,2,5] : List Int) = [1,2,2,5] :=
  ⟨by decide, heapsort_sorted_id _ (by decide)⟩

/-- Claim C9: `node_at i` fails with the IndexOutOfBounds condition when
`i ≥ length` and returns the element stored at index `i` when
`i < length` (the heap itself is not modified: the operation is a pure
read). -/
theorem nodeAt_spec (h : MaxHeap α) (i : Nat) :
    (h.data.length ≤ i → nodeAt h i = Except.error HeapErr.indexOutOfBounds) ∧
    (i < h.data.length → nodeAt h i = Except.ok (h.data.getD i default)) := by
  constructor
  · intro hge
    rw [nodeAt, if_neg (by omega)]
  · intro hlt
    rw [nodeAt, if_pos hlt]

/-- Witness for claim C9 at a concrete heap: failure at index 5 and the
stored value at index 1. -/
theorem nodeAt_spec_witness :
    ((⟨[4,7],2⟩ : MaxHeap Int).data.length ≤ 5 ∧
      nodeAt (⟨[4,7],2⟩ : MaxHeap Int) 5 = Except.error HeapErr.indexOutOfBounds) ∧
    (1 < (⟨[4,7],2⟩ : MaxHeap Int).data.length ∧
      nodeAt (⟨[4,7],2⟩ : MaxHeap Int) 1 = Except.ok 7) :=
  ⟨⟨by decide, (nodeAt_spec (⟨[4,7],2⟩ : MaxHeap Int) 5).1 (by decide)⟩,
   ⟨by decide, (nodeAt_spec (⟨[4,7],2⟩ : MaxHeap Int) 1).2 (by decide)⟩⟩

/-- Claim C10: for a heap with `size ≤ length`, `push x` inserts `x` at
position `size` (by insertion, not overwrite): afterwards the length and
the size have both grown by one, and every residual element previously at
an index `j ∈ [size, length)` keeps its value, now at index `j + 1`. -/
theorem push_frame (h : MaxHeap α) (x : α) (hle : h.size ≤ h.data.length) :
    (push h x).data.length = h.data.length + 1 ∧
    (push h x).size = h.size + 1 ∧
    ∀ j, h.size ≤ j → j < h.data.length →
      (push h x).data.getD (j+1) default = h.data.getD j default := by
  refine ⟨push_length h x hle, rfl, ?_⟩
  intro j hj1 hj2
  show (heapifyBottomF (h.size+1) (h.size+1)
      (List.insertIdx h.size x h.data) h.size).getD (j+1) default = _
  rw [heapifyBottomF_getD_above _ _ _ _ _ (by omega),
    getD_insertIdx_succ_ge _ _ _ _ hj1]

/-- Witness for claim C10: pushing 6 onto a heap of logical size 1 whose
backing storage still holds the residual elements 9 and 7; the residual
value previously at index 1 is found at index 2 afterwards. -/
theorem push_frame_witness :
    (⟨[5,9,7],1⟩ : MaxHeap Int).size ≤ (⟨[5,9,7],1⟩ : MaxHeap Int).data.length ∧
    (push (⟨[5,9,7],1⟩ : MaxHeap Int) 6).data.getD 2 default
      = (⟨[5,9,7],1⟩ : MaxHeap Int).data.getD 1 default :=
  ⟨by decide,
    (push_frame (⟨[5,9,7],1⟩ : MaxHeap Int) 6 (by decide)).2.2 1
      (by decide) (by decide)⟩

end Algae
